import Mathlib

/-!
Verification development for the AGV3D interactive 3D scene editor
(src/app/agv/page.tsx and src/app/api/upload/route.ts).

Numbers that are IEEE doubles in the source are modelled as rationals; the
claims under study are about exact control flow and affine geometry
(reparenting, plane intersection, linear interpolation, clamping), none of
which depends on rounding.  JS decimal literals such as 0.02, 1.3, 1.6 are
written as the rationals 2/100, 13/10, 16/10.
-/

/-! ## Basic geometry: vectors and the vehicle yaw transform -/

/-- A 3-component vector, standing for THREE.Vector3 as well as the
Vec3Tuple arrays of page.tsx. -/
structure V3 where
  x : ℚ
  y : ℚ
  z : ℚ
deriving DecidableEq, Repr

instance : Add V3 := ⟨fun a b => ⟨a.x + b.x, a.y + b.y, a.z + b.z⟩⟩

instance : Sub V3 := ⟨fun a b => ⟨a.x - b.x, a.y - b.y, a.z - b.z⟩⟩

theorem V3.add_def (a b : V3) : a + b = ⟨a.x + b.x, a.y + b.y, a.z + b.z⟩ := rfl

theorem V3.sub_def (a b : V3) : a - b = ⟨a.x - b.x, a.y - b.y, a.z - b.z⟩ := rfl

/-- Cosine/sine pair of the AGV yaw angle (the group has rotation.y only,
set by the vehicle controller).  Carrying the pair keeps the model in ℚ;
theorems that need a genuine angle add the hypothesis c^2 + s^2 = 1. -/
structure Yaw where
  c : ℚ
  s : ℚ
deriving DecidableEq, Repr

/-- Applying the yaw to a local vector: the Y-axis rotation matrix used by
THREE for a group whose Euler angles are (0, yaw, 0). -/
def yawApply (r : Yaw) (v : V3) : V3 :=
  ⟨r.c * v.x + r.s * v.z, v.y, -r.s * v.x + r.c * v.z⟩

/-- The identity yaw (vehicle not turned). -/
def yawId : Yaw := ⟨1, 0⟩

theorem yawApply_id (v : V3) : yawApply yawId v = v := by
  cases v; simp [yawApply, yawId]

/-! ## Attach/carry subsystem (page.tsx KeyQ effect, lines 1033-1074)

An uploaded object is a scene-graph node whose parent is either the scene
root or the AGV group.  The scene root has the identity transform and the
AGV group has position agvWorld and yaw rot with unit scale, so world
positions are computable from the parent tag and the local position. -/

/-- Possible parents of an uploaded object in the scene graph. -/
inductive NodeParent where
  | sceneRoot : NodeParent
  | vehicle : NodeParent
deriving DecidableEq, Repr

/-- The scene-graph state of one uploaded object: its parent and its local
position (obj.position). -/
structure ObjNode where
  parent : NodeParent
  localPos : V3
deriving DecidableEq, Repr

/-- World position of an object node (THREE getWorldPosition):
identity at the scene root, the AGV pose composed with the local
position under the vehicle. -/
def nodeWorldPos (agvWorld : V3) (rot : Yaw) (o : ObjNode) : V3 :=
  match o.parent with
  | NodeParent.sceneRoot => o.localPos
  | NodeParent.vehicle => agvWorld + yawApply rot o.localPos

/-- An attachment rule: { id, offset } from the attachRules state. -/
structure AttachRule where
  id : String
  offset : V3
deriving DecidableEq, Repr

/-- The state read and mutated by one KeyQ toggle: the per-id object nodes
(uploadObjectMapRef) and the carried id set (carriedIds; kept as a list,
unique because the handler rebuilds it from a JS Set on every call). -/
structure CarryState where
  objs : List (String × ObjNode)
  carried : List String
deriving DecidableEq, Repr

/-- Key lookup in the object map (uploadObjectMapRef.current.get). -/
def lookupObj (objs : List (String × ObjNode)) (id : String) : Option ObjNode :=
  match objs with
  | [] => none
  | p :: rest => if p.1 = id then some p.2 else lookupObj rest id

/-- Assoc-list update of the node stored under an id, mirroring the
imperative mutation of the single THREE object held in the map. -/
def updateObj (objs : List (String × ObjNode)) (id : String) (o : ObjNode) :
    List (String × ObjNode) :=
  objs.map fun p => if p.1 = id then (id, o) else p

/-- One iteration of the for-loop of the KeyQ handler (page.tsx 1041-1068)
for a single rule.  agvPos is the telemetry position used for the distance
check; agvWorld/rot are the actual AGV group pose used by getWorldPosition
and by reparenting.  The source compares Math.sqrt(dx*dx+dz*dz) with the
pick radius 2; over ℚ the equivalent square comparison dx*dx+dz*dz <= 4 is
used (sqrt is monotone and both sides are nonnegative). -/
def toggleRule (agvPos agvWorld : V3) (rot : Yaw) (st : CarryState)
    (r : AttachRule) : CarryState :=
  match lookupObj st.objs r.id with
  | none => st
  | some o =>
    if r.id ∈ st.carried then
      -- detach: record the world position, then scene.attach preserves the
      -- world transform, so under the identity scene root the new local
      -- position is that world position.
      let w := nodeWorldPos agvWorld rot o
      { objs := updateObj st.objs r.id ⟨NodeParent.sceneRoot, w⟩
        carried := st.carried.erase r.id }
    else
      let w := nodeWorldPos agvWorld rot o
      let dx := w.x - agvPos.x
      let dz := w.z - agvPos.z
      if dx * dx + dz * dz ≤ 4 then
        -- attach: agv.add(obj) keeps the local transform, which is then
        -- overwritten with the stored rule offset.
        { objs := updateObj st.objs r.id ⟨NodeParent.vehicle, r.offset⟩
          carried := r.id :: st.carried }
      else st

/-- One full KeyQ invocation: the handler walks all attachRules in order,
threading the carried set (page.tsx 1037-1070). -/
def toggleQ (agvPos agvWorld : V3) (rot : Yaw) (st : CarryState)
    (rules : List AttachRule) : CarryState :=
  rules.foldl (toggleRule agvPos agvWorld rot) st

/-- Squared distance in the horizontal XZ plane; the handler compares the
square root of this with the pick radius. -/
def distSqXZ (a b : V3) : ℚ :=
  (a.x - b.x) * (a.x - b.x) + (a.z - b.z) * (a.z - b.z)

theorem lookup_updateObj_self (objs : List (String × ObjNode)) (id : String)
    (o o₀ : ObjNode) (h : lookupObj objs id = some o₀) :
    lookupObj (updateObj objs id o) id = some o := by
  induction objs with
  | nil => simp [lookupObj] at h
  | cons p rest ih =>
    by_cases hk : p.1 = id
    · simp [updateObj, hk, lookupObj]
    · simp [updateObj, hk, lookupObj] at h ⊢
      exact ih h

theorem lookup_updateObj_ne (objs : List (String × ObjNode)) (id id' : String)
    (o : ObjNode) (h : id' ≠ id) :
    lookupObj (updateObj objs id o) id' = lookupObj objs id' := by
  induction objs with
  | nil => simp [updateObj]
  | cons p rest ih =>
    by_cases hk : p.1 = id
    · subst hk
      simp [updateObj, lookupObj, Ne.symm h]
      simpa [updateObj] using ih
    · by_cases hk' : p.1 = id'
      · simp [updateObj, hk, lookupObj, hk', h]
      · simp [updateObj, hk, lookupObj, hk']
        simpa [updateObj] using ih

theorem toggleRule_preserves_ne (agvPos agvWorld : V3) (rot : Yaw)
    (st : CarryState) (r : AttachRule) (id : String) (h : id ≠ r.id) :
    lookupObj (toggleRule agvPos agvWorld rot st r).objs id = lookupObj st.objs id ∧
    (id ∈ (toggleRule agvPos agvWorld rot st r).carried ↔ id ∈ st.carried) := by
  unfold toggleRule
  cases hL : lookupObj st.objs r.id with
  | none => simp
  | some o =>
    by_cases hc : r.id ∈ st.carried
    · simp only [hc, if_true]
      exact ⟨lookup_updateObj_ne _ _ _ _ h, List.mem_erase_of_ne h⟩
    · simp only [hc, if_false]
      split
      · exact ⟨lookup_updateObj_ne _ _ _ _ h, by simp [List.mem_cons, h]⟩
      · simp

theorem toggleRule_carried_nodup (agvPos agvWorld : V3) (rot : Yaw)
    (st : CarryState) (r : AttachRule) (h : st.carried.Nodup) :
    (toggleRule agvPos agvWorld rot st r).carried.Nodup := by
  unfold toggleRule
  cases lookupObj st.objs r.id with
  | none => exact h
  | some o =>
    by_cases hc : r.id ∈ st.carried
    · simpa [hc] using h.erase r.id
    · simp only [hc, if_false]
      split
      · exact List.nodup_cons.mpr ⟨hc, h⟩
      · exact h

theorem toggleQ_preserves_not_mem (agvPos agvWorld : V3) (rot : Yaw)
    (rules : List AttachRule) (st : CarryState) (id : String)
    (h : id ∉ rules.map AttachRule.id) :
    lookupObj (toggleQ agvPos agvWorld rot st rules).objs id = lookupObj st.objs id ∧
    (id ∈ (toggleQ agvPos agvWorld rot st rules).carried ↔ id ∈ st.carried) := by
  induction rules generalizing st with
  | nil => simp [toggleQ]
  | cons r rest ih =>
    simp only [List.map_cons, List.mem_cons, not_or] at h
    have step := toggleRule_preserves_ne agvPos agvWorld rot st r id h.1
    have tail := ih (toggleRule agvPos agvWorld rot st r) h.2
    refine ⟨?_, ?_⟩
    · calc lookupObj (toggleQ agvPos agvWorld rot st (r :: rest)).objs id
          = lookupObj (toggleRule agvPos agvWorld rot st r).objs id := tail.1
        _ = lookupObj st.objs id := step.1
    · exact tail.2.trans step.2

theorem toggleQ_carried_nodup (agvPos agvWorld : V3) (rot : Yaw)
    (rules : List AttachRule) (st : CarryState) (h : st.carried.Nodup) :
    (toggleQ agvPos agvWorld rot st rules).carried.Nodup := by
  induction rules generalizing st with
  | nil => exact h
  | cons r rest ih =>
    exact ih _ (toggleRule_carried_nodup agvPos agvWorld rot st r h)

/-- C1: in one KeyQ invocation, a rule whose asset is not carried attaches
it (reparent under the vehicle, local transform set to the stored offset,
id added to the carried set) exactly when the XZ distance between the asset
world position and the vehicle position is at most the pick radius 2
(equivalently, the squared distance is at most 4); a rule whose asset is
carried detaches it to the scene root preserving the world position it had
at detach time and removes it from the carried set. -/
theorem C1_attach_toggle
    (agvPos agvWorld : V3) (rot : Yaw) (st : CarryState) (rules : List AttachRule)
    (r : AttachRule) (o : ObjNode)
    (hnd : (rules.map AttachRule.id).Nodup)
    (hcar : st.carried.Nodup)
    (hr : r ∈ rules)
    (ho : lookupObj st.objs r.id = some o) :
    (r.id ∈ st.carried →
        lookupObj (toggleQ agvPos agvWorld rot st rules).objs r.id
            = some ⟨NodeParent.sceneRoot, nodeWorldPos agvWorld rot o⟩ ∧
        nodeWorldPos agvWorld rot ⟨NodeParent.sceneRoot, nodeWorldPos agvWorld rot o⟩
            = nodeWorldPos agvWorld rot o ∧
        r.id ∉ (toggleQ agvPos agvWorld rot st rules).carried) ∧
    (r.id ∉ st.carried →
        (distSqXZ (nodeWorldPos agvWorld rot o) agvPos ≤ 4 →
            lookupObj (toggleQ agvPos agvWorld rot st rules).objs r.id
                = some ⟨NodeParent.vehicle, r.offset⟩ ∧
            r.id ∈ (toggleQ agvPos agvWorld rot st rules).carried) ∧
        (¬ distSqXZ (nodeWorldPos agvWorld rot o) agvPos ≤ 4 →
            lookupObj (toggleQ agvPos agvWorld rot st rules).objs r.id = some o ∧
            r.id ∉ (toggleQ agvPos agvWorld rot st rules).carried)) := by
  obtain ⟨l₁, l₂, rfl⟩ := List.append_of_mem hr
  rw [List.map_append, List.map_cons] at hnd
  have hdis := List.disjoint_of_nodup_append hnd
  have h1 : r.id ∉ l₁.map AttachRule.id := fun hm => hdis hm (List.mem_cons_self _ _)
  have h2 : r.id ∉ l₂.map AttachRule.id := (List.nodup_cons.mp hnd.of_append_right).1
  have hfold : toggleQ agvPos agvWorld rot st (l₁ ++ r :: l₂)
      = toggleQ agvPos agvWorld rot
          (toggleRule agvPos agvWorld rot (toggleQ agvPos agvWorld rot st l₁) r) l₂ := by
    simp [toggleQ, List.foldl_append]
  have pre := toggleQ_preserves_not_mem agvPos agvWorld rot l₁ st r.id h1
  have ho₁ : lookupObj (toggleQ agvPos agvWorld rot st l₁).objs r.id = some o := by
    rw [pre.1, ho]
  have hnd₁ : (toggleQ agvPos agvWorld rot st l₁).carried.Nodup :=
    toggleQ_carried_nodup agvPos agvWorld rot l₁ st hcar
  constructor
  · intro hcIn
    have hcIn₁ : r.id ∈ (toggleQ agvPos agvWorld rot st l₁).carried := pre.2.mpr hcIn
    have hstep : toggleRule agvPos agvWorld rot (toggleQ agvPos agvWorld rot st l₁) r
        = { objs := updateObj (toggleQ agvPos agvWorld rot st l₁).objs r.id
              ⟨NodeParent.sceneRoot, nodeWorldPos agvWorld rot o⟩
            carried := (toggleQ agvPos agvWorld rot st l₁).carried.erase r.id } := by
      unfold toggleRule
      rw [ho₁]
      simp [hcIn₁]
    rw [hfold, hstep]
    have post := toggleQ_preserves_not_mem agvPos agvWorld rot l₂
      { objs := updateObj (toggleQ agvPos agvWorld rot st l₁).objs r.id
          ⟨NodeParent.sceneRoot, nodeWorldPos agvWorld rot o⟩
        carried := (toggleQ agvPos agvWorld rot st l₁).carried.erase r.id } r.id h2
    refine ⟨?_, rfl, ?_⟩
    · rw [post.1]
      exact lookup_updateObj_self _ _ _ _ ho₁
    · intro hmm
      exact hnd₁.not_mem_erase (post.2.mp hmm)
  · intro hcOut
    have hcOut₁ : r.id ∉ (toggleQ agvPos agvWorld rot st l₁).carried :=
      fun hmm => hcOut (pre.2.mp hmm)
    constructor
    · intro hnear
      have hstep : toggleRule agvPos agvWorld rot (toggleQ agvPos agvWorld rot st l₁) r
          = { objs := updateObj (toggleQ agvPos agvWorld rot st l₁).objs r.id
                ⟨NodeParent.vehicle, r.offset⟩
              carried := r.id :: (toggleQ agvPos agvWorld rot st l₁).carried } := by
        unfold toggleRule
        rw [ho₁]
        simp only [distSqXZ] at hnear
        simp only [hcOut₁, if_false, if_pos hnear]
      rw [hfold, hstep]
      have post := toggleQ_preserves_not_mem agvPos agvWorld rot l₂
        { objs := updateObj (toggleQ agvPos agvWorld rot st l₁).objs r.id
            ⟨NodeParent.vehicle, r.offset⟩
          carried := r.id :: (toggleQ agvPos agvWorld rot st l₁).carried } r.id h2
      refine ⟨?_, ?_⟩
      · rw [post.1]
        exact lookup_updateObj_self _ _ _ _ ho₁
      · exact post.2.mpr (List.mem_cons_self _ _)
    · intro hfar
      have hstep : toggleRule agvPos agvWorld rot (toggleQ agvPos agvWorld rot st l₁) r
          = toggleQ agvPos agvWorld rot st l₁ := by
        unfold toggleRule
        rw [ho₁]
        simp only [distSqXZ] at hfar
        simp only [hcOut₁, if_false, if_neg hfar]
      rw [hfold, hstep]
      have post := toggleQ_preserves_not_mem agvPos agvWorld rot l₂
        (toggleQ agvPos agvWorld rot st l₁) r.id h2
      exact ⟨post.1.trans ho₁, fun hmm => hcOut₁ (post.2.mp hmm)⟩

/-- Witness for C1 at a concrete input: one rule for asset a whose object
sits free at world position (1,0,0), vehicle at the origin with identity
yaw; the asset is inside the pick radius, so the invocation attaches it. -/
theorem C1_attach_toggle_witness :
    ((([⟨"a", ⟨0, 0, 0⟩⟩] : List AttachRule).map AttachRule.id).Nodup ∧
      ([] : List String).Nodup ∧
      (⟨"a", ⟨0, 0, 0⟩⟩ : AttachRule) ∈ ([⟨"a", ⟨0, 0, 0⟩⟩] : List AttachRule) ∧
      lookupObj [("a", ⟨NodeParent.sceneRoot, ⟨1, 0, 0⟩⟩)] "a"
        = some ⟨NodeParent.sceneRoot, ⟨1, 0, 0⟩⟩) ∧
    (("a" ∈ (⟨[("a", ⟨NodeParent.sceneRoot, ⟨1, 0, 0⟩⟩)], []⟩ : CarryState).carried →
        lookupObj (toggleQ ⟨0, 0, 0⟩ ⟨0, 0, 0⟩ yawId
            ⟨[("a", ⟨NodeParent.sceneRoot, ⟨1, 0, 0⟩⟩)], []⟩
            [⟨"a", ⟨0, 0, 0⟩⟩]).objs "a"
          = some ⟨NodeParent.sceneRoot,
              nodeWorldPos ⟨0, 0, 0⟩ yawId ⟨NodeParent.sceneRoot, ⟨1, 0, 0⟩⟩⟩ ∧
        nodeWorldPos ⟨0, 0, 0⟩ yawId
            ⟨NodeParent.sceneRoot,
              nodeWorldPos ⟨0, 0, 0⟩ yawId ⟨NodeParent.sceneRoot, ⟨1, 0, 0⟩⟩⟩
          = nodeWorldPos ⟨0, 0, 0⟩ yawId ⟨NodeParent.sceneRoot, ⟨1, 0, 0⟩⟩ ∧
        "a" ∉ (toggleQ ⟨0, 0, 0⟩ ⟨0, 0, 0⟩ yawId
            ⟨[("a", ⟨NodeParent.sceneRoot, ⟨1, 0, 0⟩⟩)], []⟩
            [⟨"a", ⟨0, 0, 0⟩⟩]).carried) ∧
      ("a" ∉ (⟨[("a", ⟨NodeParent.sceneRoot, ⟨1, 0, 0⟩⟩)], []⟩ : CarryState).carried →
        (distSqXZ (nodeWorldPos ⟨0, 0, 0⟩ yawId ⟨NodeParent.sceneRoot, ⟨1, 0, 0⟩⟩)
            ⟨0, 0, 0⟩ ≤ 4 →
          lookupObj (toggleQ ⟨0, 0, 0⟩ ⟨0, 0, 0⟩ yawId
              ⟨[("a", ⟨NodeParent.sceneRoot, ⟨1, 0, 0⟩⟩)], []⟩
              [⟨"a", ⟨0, 0, 0⟩⟩]).objs "a"
            = some ⟨NodeParent.vehicle, ⟨0, 0, 0⟩⟩ ∧
          "a" ∈ (toggleQ ⟨0, 0, 0⟩ ⟨0, 0, 0⟩ yawId
              ⟨[("a", ⟨NodeParent.sceneRoot, ⟨1, 0, 0⟩⟩)], []⟩
              [⟨"a", ⟨0, 0, 0⟩⟩]).carried) ∧
        (¬ distSqXZ (nodeWorldPos ⟨0, 0, 0⟩ yawId ⟨NodeParent.sceneRoot, ⟨1, 0, 0⟩⟩)
            ⟨0, 0, 0⟩ ≤ 4 →
          lookupObj (toggleQ ⟨0, 0, 0⟩ ⟨0, 0, 0⟩ yawId
              ⟨[("a", ⟨NodeParent.sceneRoot, ⟨1, 0, 0⟩⟩)], []⟩
              [⟨"a", ⟨0, 0, 0⟩⟩]).objs "a"
            = some ⟨NodeParent.sceneRoot, ⟨1, 0, 0⟩⟩ ∧
          "a" ∉ (toggleQ ⟨0, 0, 0⟩ ⟨0, 0, 0⟩ yawId
              ⟨[("a", ⟨NodeParent.sceneRoot, ⟨1, 0, 0⟩⟩)], []⟩
              [⟨"a", ⟨0, 0, 0⟩⟩]).carried))) :=
  ⟨⟨by decide, by decide, by decide, by decide⟩,
    C1_attach_toggle ⟨0, 0, 0⟩ ⟨0, 0, 0⟩ yawId
      ⟨[("a", ⟨NodeParent.sceneRoot, ⟨1, 0, 0⟩⟩)], []⟩
      [⟨"a", ⟨0, 0, 0⟩⟩] ⟨"a", ⟨0, 0, 0⟩⟩ ⟨NodeParent.sceneRoot, ⟨1, 0, 0⟩⟩
      (by decide) (by decide) (by decide) (by decide)⟩

/-- C2 counterexample: asset a sits free at world position (1,0,0), the
vehicle is at the origin with identity yaw, and the rule stores offset
(5,5,5).  The asset is within the pick radius, so the first KeyQ attaches
it, snapping its local transform to the stored offset; the second KeyQ
detaches it at world position (5,5,5).  The x coordinate moved from 1 to
5, which is not within the 1e-4 tolerance of the claim. -/
theorem C2_roundtrip_counterexample :
    lookupObj (toggleQ ⟨0, 0, 0⟩ ⟨0, 0, 0⟩ yawId
        (toggleQ ⟨0, 0, 0⟩ ⟨0, 0, 0⟩ yawId
          ⟨[("a", ⟨NodeParent.sceneRoot, ⟨1, 0, 0⟩⟩)], []⟩
          [⟨"a", ⟨5, 5, 5⟩⟩])
        [⟨"a", ⟨5, 5, 5⟩⟩]).objs "a"
      = some ⟨NodeParent.sceneRoot, ⟨5, 5, 5⟩⟩ ∧
    nodeWorldPos ⟨0, 0, 0⟩ yawId ⟨NodeParent.sceneRoot, ⟨1, 0, 0⟩⟩ = ⟨1, 0, 0⟩ ∧
    ¬ |(5 : ℚ) - 1| ≤ 1 / 10000 := by
  refine ⟨?_, by decide, by norm_num⟩
  norm_num [toggleQ, toggleRule, lookupObj, updateObj, nodeWorldPos, yawApply,
    yawId, distSqXZ, V3.add_def]

/-- C2 amended: attaching then detaching an asset in two successive KeyQ
invocations with the vehicle unmoved leaves the asset at world position
vehiclePos + yaw(offset), where offset is the stored rule offset.  When
the yaw is the identity and the offset equals the pre-attach world
position minus the vehicle position (the values the Add Rule button stores
when nothing moved since), that world position equals the pre-attach world
position exactly, hence in particular within 1e-4 per coordinate. -/
theorem C2_roundtrip_amended
    (agvPos agvWorld : V3) (rot : Yaw) (st : CarryState) (r : AttachRule) (o : ObjNode)
    (ho : lookupObj st.objs r.id = some o)
    (hnc : r.id ∉ st.carried)
    (hnear : distSqXZ (nodeWorldPos agvWorld rot o) agvPos ≤ 4) :
    lookupObj (toggleQ agvPos agvWorld rot
        (toggleQ agvPos agvWorld rot st [r]) [r]).objs r.id
      = some ⟨NodeParent.sceneRoot, agvWorld + yawApply rot r.offset⟩ ∧
    (rot = yawId → r.offset = nodeWorldPos agvWorld rot o - agvWorld →
      agvWorld + yawApply rot r.offset = nodeWorldPos agvWorld rot o) := by
  have h1 : toggleQ agvPos agvWorld rot st [r]
      = { objs := updateObj st.objs r.id ⟨NodeParent.vehicle, r.offset⟩
          carried := r.id :: st.carried } := by
    simp only [toggleQ, List.foldl_cons, List.foldl_nil]
    unfold toggleRule
    rw [ho]
    simp only [distSqXZ] at hnear
    simp only [hnc, if_false, if_pos hnear]
  have ho₂ : lookupObj (updateObj st.objs r.id ⟨NodeParent.vehicle, r.offset⟩) r.id
      = some ⟨NodeParent.vehicle, r.offset⟩ := lookup_updateObj_self _ _ _ _ ho
  have h2 : toggleQ agvPos agvWorld rot
      ({ objs := updateObj st.objs r.id ⟨NodeParent.vehicle, r.offset⟩
         carried := r.id :: st.carried } : CarryState) [r]
      = { objs := updateObj (updateObj st.objs r.id ⟨NodeParent.vehicle, r.offset⟩) r.id
            ⟨NodeParent.sceneRoot,
              nodeWorldPos agvWorld rot ⟨NodeParent.vehicle, r.offset⟩⟩
          carried := (r.id :: st.carried).erase r.id } := by
    simp only [toggleQ, List.foldl_cons, List.foldl_nil]
    unfold toggleRule
    rw [show lookupObj
        ({ objs := updateObj st.objs r.id ⟨NodeParent.vehicle, r.offset⟩
           carried := r.id :: st.carried } : CarryState).objs r.id
        = some ⟨NodeParent.vehicle, r.offset⟩ from ho₂]
    simp [List.mem_cons]
  constructor
  · rw [h1, h2]
    have := lookup_updateObj_self
      (updateObj st.objs r.id ⟨NodeParent.vehicle, r.offset⟩) r.id
      ⟨NodeParent.sceneRoot, nodeWorldPos agvWorld rot ⟨NodeParent.vehicle, r.offset⟩⟩
      ⟨NodeParent.vehicle, r.offset⟩ ho₂
    simpa [nodeWorldPos] using this
  · intro hrot hoff
    subst hrot
    rw [yawApply_id, hoff]
    cases agvWorld with
    | mk ax ay az =>
      cases hW : nodeWorldPos ⟨ax, ay, az⟩ yawId o with
      | mk wx wy wz =>
        simp [V3.add_def, V3.sub_def]

/-- Witness for the amended C2 at a concrete input: asset a free at
(1,0,0), vehicle at origin with identity yaw, rule offset (1,0,0); the
attach-detach pair returns the asset exactly to (1,0,0). -/
theorem C2_roundtrip_amended_witness :
    (lookupObj [("a", ⟨NodeParent.sceneRoot, ⟨1, 0, 0⟩⟩)] "a"
        = some ⟨NodeParent.sceneRoot, ⟨1, 0, 0⟩⟩ ∧
      "a" ∉ (⟨[("a", ⟨NodeParent.sceneRoot, ⟨1, 0, 0⟩⟩)], []⟩ : CarryState).carried ∧
      distSqXZ (nodeWorldPos ⟨0, 0, 0⟩ yawId ⟨NodeParent.sceneRoot, ⟨1, 0, 0⟩⟩)
        ⟨0, 0, 0⟩ ≤ 4) ∧
    (lookupObj (toggleQ ⟨0, 0, 0⟩ ⟨0, 0, 0⟩ yawId
        (toggleQ ⟨0, 0, 0⟩ ⟨0, 0, 0⟩ yawId
          ⟨[("a", ⟨NodeParent.sceneRoot, ⟨1, 0, 0⟩⟩)], []⟩
          [⟨"a", ⟨1, 0, 0⟩⟩])
        [⟨"a", ⟨1, 0, 0⟩⟩]).objs "a"
      = some ⟨NodeParent.sceneRoot, (⟨0, 0, 0⟩ : V3) + yawApply yawId ⟨1, 0, 0⟩⟩ ∧
    (yawId = yawId →
      (⟨1, 0, 0⟩ : V3)
          = nodeWorldPos ⟨0, 0, 0⟩ yawId ⟨NodeParent.sceneRoot, ⟨1, 0, 0⟩⟩ - ⟨0, 0, 0⟩ →
      (⟨0, 0, 0⟩ : V3) + yawApply yawId ⟨1, 0, 0⟩
        = nodeWorldPos ⟨0, 0, 0⟩ yawId ⟨NodeParent.sceneRoot, ⟨1, 0, 0⟩⟩)) :=
  ⟨⟨by decide, by decide, by norm_num [distSqXZ, nodeWorldPos]⟩,
    C2_roundtrip_amended ⟨0, 0, 0⟩ ⟨0, 0, 0⟩ yawId
      ⟨[("a", ⟨NodeParent.sceneRoot, ⟨1, 0, 0⟩⟩)], []⟩
      ⟨"a", ⟨1, 0, 0⟩⟩ ⟨NodeParent.sceneRoot, ⟨1, 0, 0⟩⟩
      (by decide) (by decide) (by norm_num [distSqXZ, nodeWorldPos])⟩

/-! ## Drag controller (page.tsx DragMove component, lines 179-322)

The pointer handlers mutate a set of refs; they are modelled as a record
threaded through pure event functions.  The THREE raycaster produced by
setFromCamera is abstracted as the ray (origin, direction) attached to each
pointer event; the plane intersection itself is translated from
THREE.Ray.intersectPlane specialised to a horizontal plane. -/

/-- The two drag axis modes stored in dragModeRef ("Y" and "XZ"). -/
inductive DMode where
  | Y : DMode
  | XZ : DMode
deriving DecidableEq, Repr

/-- The DragMove refs: draggingRef, dragYRef, dragPosRef, lastPointerRef,
dragModeRef, dragOffsetRef. -/
structure DragState where
  dragging : Bool
  dragY : Option ℚ
  dragPos : Option V3
  lastPointer : Option (ℚ × ℚ)
  dragMode : Option DMode
  dragOffset : Option V3
deriving DecidableEq, Repr

/-- A pointer-move event: client coordinates, the camera ray under the
pointer, and whether ArrowDown is held (arrowDownRef). -/
structure PointerMoveEvent where
  clientX : ℚ
  clientY : ℚ
  rayOrigin : V3
  rayDir : V3
  arrowDown : Bool
deriving DecidableEq, Repr

/-- A pointer-down event: client coordinates, the camera ray, and the
result of the raycast walk over the hit objects, reduced to the found
uploadId together with the world position of the carrying group (or none
when no draggable entity was hit). -/
structure PointerDownEvent where
  clientX : ℚ
  clientY : ℚ
  rayOrigin : V3
  rayDir : V3
  hit : Option (String × V3)
deriving DecidableEq, Repr

/-- THREE.Ray.intersectPlane for the horizontal plane of height planeY
(normal (0,1,0), plane constant -planeY): solves for the parameter t with
oy + t*dy = planeY, returns the point when t is nonnegative, the origin
when the ray lies in the plane, and none otherwise. -/
def intersectHorizPlane (o d : V3) (planeY : ℚ) : Option V3 :=
  if d.y = 0 then
    if o.y - planeY = 0 then some o else none
  else
    let t := -(o.y - planeY) / d.y
    if 0 ≤ t then some ⟨o.x + t * d.x, o.y + t * d.y, o.z + t * d.z⟩ else none

/-- The onPointerDown handler (page.tsx 212-250), given the outcome of its
hit walk.  On a hit it arms a drag session: captures the world height and
position, the pointer coordinates, clears the mode, and stores the offset
between the entity world XZ and the plane intersection under the pointer
at the entity height (zero when the ray misses the plane).  The second
component is the onPick payload. -/
def onPointerDown (ev : PointerDownEvent) (st : DragState) :
    DragState × Option (Option String) :=
  match ev.hit with
  | some (id, wp) =>
    let offset : V3 :=
      match intersectHorizPlane ev.rayOrigin ev.rayDir wp.y with
      | some p => ⟨wp.x - p.x, 0, wp.z - p.z⟩
      | none => ⟨0, 0, 0⟩
    (⟨true, some wp.y, some wp, some (ev.clientX, ev.clientY), none, some offset⟩,
      some (some id))
  | none => (st, some none)

/-- The onPointerUp / onPointerLeave handler (page.tsx 251-259): fires
onDrop when a drag was active (second component) and clears every ref. -/
def onPointerUp (st : DragState) : DragState × Bool :=
  (⟨false, none, none, none, none, none⟩, st.dragging)

/-- The onPointerMove handler (page.tsx 260-291).  Returns the new ref
state and the position passed to onMove, if any.  Control flow follows the
source: no-op unless dragging; mode disambiguation runs only when no mode
is stored and ArrowDown is not held (vertical wins when the absolute
vertical pixel delta exceeds 1.3 times the horizontal one); the vertical
branch runs when ArrowDown is held or the stored mode is "Y" and lowers
the height by 0.02 per pixel; the horizontal branch intersects the pointer
ray with the plane at the grabbed height and adds the stored offset. -/
def onPointerMove (groundY : ℚ) (ev : PointerMoveEvent) (st : DragState) :
    DragState × Option V3 :=
  if st.dragging = false then (st, none)
  else
    let currentPos := st.dragPos.getD ⟨0, groundY, 0⟩
    let last := st.lastPointer.getD (ev.clientX, ev.clientY)
    let mode :=
      if st.dragMode = none ∧ ev.arrowDown = false then
        some (if |ev.clientY - last.2| > |ev.clientX - last.1| * (13 / 10)
          then DMode.Y else DMode.XZ)
      else st.dragMode
    if ev.arrowDown = true ∨ mode = some DMode.Y then
      let dy := ev.clientY - last.2
      let nextY := currentPos.y - dy * (2 / 100)
      let next : V3 := ⟨currentPos.x, nextY, currentPos.z⟩
      ({ st with
          dragMode := mode
          dragPos := some next
          lastPointer := some (ev.clientX, ev.clientY) }, some next)
    else
      let planeY := st.dragY.getD currentPos.y
      match intersectHorizPlane ev.rayOrigin ev.rayDir planeY with
      | some point =>
        let offset := st.dragOffset.getD ⟨0, 0, 0⟩
        let next : V3 := ⟨point.x + offset.x, planeY, point.z + offset.z⟩
        ({ st with
            dragMode := mode
            dragPos := some next
            lastPointer := some (ev.clientX, ev.clientY) }, some next)
      | none =>
        ({ st with
            dragMode := mode
            lastPointer := some (ev.clientX, ev.clientY) }, none)

/-- C3 counterexample: a session whose stored mode is already "XZ"
(horizontal), grabbed height 0, receives a pointer-move with ArrowDown
held.  The handler takes the vertical branch: the emitted position has
height -1/5 instead of the grabbed height 0, so the axis behaviour did
change mid-session when the modifier was pressed, refuting the claim. -/
theorem C3_mode_stability_counterexample :
    (onPointerMove 0 ⟨0, 10, ⟨0, 5, 0⟩, ⟨0, -1, 0⟩, true⟩
        ⟨true, some 0, some ⟨0, 0, 0⟩, some (0, 0), some DMode.XZ,
          some ⟨0, 0, 0⟩⟩).1.dragMode = some DMode.XZ ∧
    (onPointerMove 0 ⟨0, 10, ⟨0, 5, 0⟩, ⟨0, -1, 0⟩, true⟩
        ⟨true, some 0, some ⟨0, 0, 0⟩, some (0, 0), some DMode.XZ,
          some ⟨0, 0, 0⟩⟩).2 = some ⟨0, -(1 / 5), 0⟩ ∧
    ¬ (-(1 / 5) : ℚ) = 0 := by
  refine ⟨?_, ?_, by norm_num⟩ <;> norm_num [onPointerMove]

/-- C3 amended: once a mode is stored it never changes for the rest of the
session, and while the modifier is not held each move follows the stored
mode (horizontal keeps the grabbed height, vertical keeps X and Z), even
if the pixel-delta ratio inverts; but a move with ArrowDown held behaves
vertically regardless of the stored mode. -/
theorem C3_mode_stability_amended (groundY : ℚ) (ev : PointerMoveEvent)
    (st : DragState) (m : DMode)
    (hdrag : st.dragging = true)
    (hm : st.dragMode = some m) :
    (onPointerMove groundY ev st).1.dragMode = some m ∧
    (ev.arrowDown = false → m = DMode.XZ →
      ∀ q : V3, (onPointerMove groundY ev st).2 = some q →
        q.y = st.dragY.getD ((st.dragPos.getD ⟨0, groundY, 0⟩).y)) ∧
    (ev.arrowDown = false → m = DMode.Y →
      ∀ q : V3, (onPointerMove groundY ev st).2 = some q →
        q.x = (st.dragPos.getD ⟨0, groundY, 0⟩).x ∧
        q.z = (st.dragPos.getD ⟨0, groundY, 0⟩).z) ∧
    (ev.arrowDown = true →
      ∀ q : V3, (onPointerMove groundY ev st).2 = some q →
        q.x = (st.dragPos.getD ⟨0, groundY, 0⟩).x ∧
        q.z = (st.dragPos.getD ⟨0, groundY, 0⟩).z) := by
  refine ⟨?_, ?_, ?_, ?_⟩
  · unfold onPointerMove
    rw [hdrag, hm]
    cases had : ev.arrowDown with
    | true => simp
    | false =>
      cases m with
      | Y => simp
      | XZ =>
        cases hI : intersectHorizPlane ev.rayOrigin ev.rayDir
            (st.dragY.getD ((st.dragPos.getD ⟨0, groundY, 0⟩).y)) <;>
          simp [hI]
  · intro h1 h2 q hq
    subst h2
    unfold onPointerMove at hq
    rw [hdrag, hm, h1] at hq
    simp only [Bool.true_eq_false, if_false, Bool.false_eq_true, false_and,
      false_or, Option.some.injEq, reduceCtorEq, if_false] at hq
    cases hI : intersectHorizPlane ev.rayOrigin ev.rayDir
        (st.dragY.getD ((st.dragPos.getD ⟨0, groundY, 0⟩).y)) with
    | some point =>
      rw [hI] at hq
      simp only [Option.some.injEq] at hq
      rw [← hq]
    | none =>
      rw [hI] at hq
      simp at hq
  · intro h1 h2 q hq
    subst h2
    unfold onPointerMove at hq
    rw [hdrag, hm, h1] at hq
    simp at hq
    rw [← hq]
    exact ⟨rfl, rfl⟩
  · intro h1 q hq
    unfold onPointerMove at hq
    rw [hdrag, hm, h1] at hq
    simp only [Bool.true_eq_false, if_false, true_or, if_true, and_false,
      Option.some.injEq] at hq
    rw [← hq]
    exact ⟨rfl, rfl⟩

/-- Witness for the amended C3 at a concrete session: a dragging state in
horizontal mode; its hypotheses hold by computation and the stored mode is
preserved by a modifier-free move. -/
theorem C3_mode_stability_amended_witness :
    (⟨true, some 0, some ⟨0, 0, 0⟩, some (0, 0), some DMode.XZ,
        some ⟨0, 0, 0⟩⟩ : DragState).dragging = true ∧
    (⟨true, some 0, some ⟨0, 0, 0⟩, some (0, 0), some DMode.XZ,
        some ⟨0, 0, 0⟩⟩ : DragState).dragMode = some DMode.XZ ∧
    (onPointerMove 0 ⟨3, 4, ⟨0, 5, 0⟩, ⟨0, -1, 0⟩, false⟩
        ⟨true, some 0, some ⟨0, 0, 0⟩, some (0, 0), some DMode.XZ,
          some ⟨0, 0, 0⟩⟩).1.dragMode = some DMode.XZ :=
  ⟨rfl, rfl,
    (C3_mode_stability_amended 0 ⟨3, 4, ⟨0, 5, 0⟩, ⟨0, -1, 0⟩, false⟩
      ⟨true, some 0, some ⟨0, 0, 0⟩, some (0, 0), some DMode.XZ,
        some ⟨0, 0, 0⟩⟩ DMode.XZ rfl rfl).1⟩

/-- C4 counterexample: an armed session (mode not yet chosen) receives its
first pointer-move with ArrowDown held.  The stored drag mode stays unset
(none) instead of becoming Vertical, refuting the claim that the mode is
Vertical in that case; disambiguation is deferred to a later move. -/
theorem C4_first_move_counterexample :
    (onPointerMove 0 ⟨0, 10, ⟨0, 5, 0⟩, ⟨0, -1, 0⟩, true⟩
        ⟨true, some 0, some ⟨0, 0, 0⟩, some (0, 0), none,
          some ⟨0, 0, 0⟩⟩).1.dragMode = none ∧
    ¬ (onPointerMove 0 ⟨0, 10, ⟨0, 5, 0⟩, ⟨0, -1, 0⟩, true⟩
        ⟨true, some 0, some ⟨0, 0, 0⟩, some (0, 0), none,
          some ⟨0, 0, 0⟩⟩).1.dragMode = some DMode.Y := by
  refine ⟨by norm_num [onPointerMove], ?_⟩
  norm_num [onPointerMove]
  exact fun h => Option.noConfusion h

/-- C4 amended: at a pointer-move of an armed session with no stored mode,
holding the modifier leaves the mode unset and moves the entity
vertically by -0.02 per pixel of vertical delta; with the modifier
released the mode is set to Vertical exactly when the absolute vertical
pixel delta since the last recorded pointer (the grab point, at the first
move) exceeds 1.3 times the absolute horizontal delta, and to Horizontal
otherwise. -/
theorem C4_first_move_amended (groundY : ℚ) (ev : PointerMoveEvent)
    (st : DragState)
    (hdrag : st.dragging = true)
    (hm : st.dragMode = none) :
    (ev.arrowDown = true →
      (onPointerMove groundY ev st).1.dragMode = none ∧
      (onPointerMove groundY ev st).2
        = some ⟨(st.dragPos.getD ⟨0, groundY, 0⟩).x,
            (st.dragPos.getD ⟨0, groundY, 0⟩).y
              - (ev.clientY - (st.lastPointer.getD (ev.clientX, ev.clientY)).2)
                * (2 / 100),
            (st.dragPos.getD ⟨0, groundY, 0⟩).z⟩) ∧
    (ev.arrowDown = false →
      (onPointerMove groundY ev st).1.dragMode
        = some (if |ev.clientY - (st.lastPointer.getD (ev.clientX, ev.clientY)).2|
              > |ev.clientX - (st.lastPointer.getD (ev.clientX, ev.clientY)).1|
                * (13 / 10)
            then DMode.Y else DMode.XZ)) := by
  constructor
  · intro h1
    unfold onPointerMove
    rw [hdrag, hm, h1]
    simp
  · intro h1
    unfold onPointerMove
    rw [hdrag, hm, h1]
    by_cases hratio : |ev.clientY - (st.lastPointer.getD (ev.clientX, ev.clientY)).2|
        > |ev.clientX - (st.lastPointer.getD (ev.clientX, ev.clientY)).1| * (13 / 10)
    · simp [hratio]
    · simp only [hratio, if_false]
      cases hI : intersectHorizPlane ev.rayOrigin ev.rayDir
          (st.dragY.getD ((st.dragPos.getD ⟨0, groundY, 0⟩).y)) <;>
        simp [hI, hratio]

/-- Witness for the amended C4 at a concrete input: armed session with
grab point (0,0); a modifier-free move to (4,10) has vertical delta 10
exceeding 1.3 times the horizontal delta 4, so the mode becomes Vertical. -/
theorem C4_first_move_amended_witness :
    (⟨true, some 0, some ⟨0, 0, 0⟩, some (0, 0), none,
        some ⟨0, 0, 0⟩⟩ : DragState).dragging = true ∧
    (⟨true, some 0, some ⟨0, 0, 0⟩, some (0, 0), none,
        some ⟨0, 0, 0⟩⟩ : DragState).dragMode = none ∧
    ((false : Bool) = false →
      (onPointerMove 0 ⟨4, 10, ⟨0, 5, 0⟩, ⟨0, -1, 0⟩, false⟩
          ⟨true, some 0, some ⟨0, 0, 0⟩, some (0, 0), none,
            some ⟨0, 0, 0⟩⟩).1.dragMode
        = some (if |(10 : ℚ) - 0| > |(4 : ℚ) - 0| * (13 / 10)
            then DMode.Y else DMode.XZ)) :=
  ⟨rfl, rfl,
    (C4_first_move_amended 0 ⟨4, 10, ⟨0, 5, 0⟩, ⟨0, -1, 0⟩, false⟩
      ⟨true, some 0, some ⟨0, 0, 0⟩, some (0, 0), none,
        some ⟨0, 0, 0⟩⟩ rfl rfl).2⟩

/-- C5 counterexample: a Horizontal-mode session grabbed at height 2
receives a pointer-move with ArrowDown held.  The handler takes the
vertical branch and emits height 1 (= 2 - 50 * 0.02), not the grabbed
height 2, so not every pointer-move of a Horizontal-mode drag keeps the
height at the grabbed height, refuting the claim as stated. -/
theorem C5_horizontal_drag_counterexample :
    (onPointerMove 0 ⟨0, 50, ⟨0, 9, 0⟩, ⟨0, -1, 0⟩, true⟩
        ⟨true, some 2, some ⟨1, 2, 3⟩, some (0, 0), some DMode.XZ,
          some ⟨0, 0, 0⟩⟩).2 = some ⟨1, 1, 3⟩ ∧
    (⟨true, some 2, some ⟨1, 2, 3⟩, some (0, 0), some DMode.XZ,
        some ⟨0, 0, 0⟩⟩ : DragState).dragY = some 2 ∧
    ¬ ((1 : ℚ) = 2) := by
  refine ⟨by norm_num [onPointerMove], rfl, by norm_num⟩

/-- C5 amended: grabbing an entity captures its world height and the
offset between its world XZ and the plane intersection under the pointer
at that height; every later horizontal-mode pointer-move with the
modifier not held whose ray hits the plane at the grabbed height emits
(and stores) the intersection plus that offset, at exactly the grabbed
height, so the entity origin never snaps to the pointer.  (A move with
ArrowDown held instead takes the vertical branch and changes the height,
as the counterexample shows.) -/
theorem C5_horizontal_drag
    (groundY : ℚ) (dev : PointerDownEvent) (st₀ : DragState)
    (id : String) (wp q : V3)
    (hhit : dev.hit = some (id, wp))
    (hq : intersectHorizPlane dev.rayOrigin dev.rayDir wp.y = some q) :
    ((onPointerDown dev st₀).1.dragY = some wp.y ∧
      (onPointerDown dev st₀).1.dragOffset = some ⟨wp.x - q.x, 0, wp.z - q.z⟩ ∧
      (onPointerDown dev st₀).1.dragPos = some wp ∧
      (onPointerDown dev st₀).1.dragging = true ∧
      (onPointerDown dev st₀).1.dragMode = none) ∧
    (∀ (st : DragState) (ev : PointerMoveEvent) (p : V3),
      st.dragging = true → st.dragMode = some DMode.XZ →
      st.dragY = some wp.y → st.dragOffset = some ⟨wp.x - q.x, 0, wp.z - q.z⟩ →
      ev.arrowDown = false →
      intersectHorizPlane ev.rayOrigin ev.rayDir wp.y = some p →
      (onPointerMove groundY ev st).2
          = some ⟨p.x + (wp.x - q.x), wp.y, p.z + (wp.z - q.z)⟩ ∧
      (onPointerMove groundY ev st).1.dragPos
          = some ⟨p.x + (wp.x - q.x), wp.y, p.z + (wp.z - q.z)⟩) := by
  constructor
  · unfold onPointerDown
    rw [hhit]
    simp [hq]
  · intro st ev p h1 h2 h3 h4 h5 hp
    unfold onPointerMove
    rw [h1, h2, h3, h4, h5]
    simp [hp]

/-- Witness for the amended C5 at a concrete input: grab the entity at world (3,0,4)
with the pointer ray hitting the plane of height 0 at the origin (offset
(3,0,4)); a later horizontal move whose ray hits the plane at (10,0,10)
places the entity at (13,0,14). -/
theorem C5_horizontal_drag_witness :
    ((⟨0, 0, ⟨0, 5, 0⟩, ⟨0, -1, 0⟩, some ("a", ⟨3, 0, 4⟩)⟩ :
        PointerDownEvent).hit = some ("a", ⟨3, 0, 4⟩) ∧
      intersectHorizPlane (⟨0, 5, 0⟩ : V3) (⟨0, -1, 0⟩ : V3) ((⟨3, 0, 4⟩ : V3).y)
        = some ⟨0, 0, 0⟩) ∧
    (onPointerMove 0 ⟨7, 8, ⟨10, 5, 10⟩, ⟨0, -1, 0⟩, false⟩
        ⟨true, some 0, some ⟨3, 0, 4⟩, some (0, 0), some DMode.XZ,
          some ⟨3 - 0, 0, 4 - 0⟩⟩).2
      = some ⟨10 + (3 - 0), (⟨3, 0, 4⟩ : V3).y, 10 + (4 - 0)⟩ :=
  ⟨⟨rfl, by norm_num [intersectHorizPlane]⟩, by
    have h := (C5_horizontal_drag 0
        ⟨0, 0, ⟨0, 5, 0⟩, ⟨0, -1, 0⟩, some ("a", ⟨3, 0, 4⟩)⟩
        ⟨false, none, none, none, none, none⟩ "a" ⟨3, 0, 4⟩ ⟨0, 0, 0⟩
        rfl (by norm_num [intersectHorizPlane])).2
        ⟨true, some 0, some ⟨3, 0, 4⟩, some (0, 0), some DMode.XZ,
          some ⟨3 - 0, 0, 4 - 0⟩⟩
        ⟨7, 8, ⟨10, 5, 10⟩, ⟨0, -1, 0⟩, false⟩ ⟨10, 0, 10⟩
        rfl rfl rfl rfl rfl (by norm_num [intersectHorizPlane])
    exact h.1⟩

/-! ## Undo history (page.tsx: uploadHistoryRef, pendingUndoRef, the
DragMove onPick/onMove/onDrop wiring at lines 1689-1723, and the Ctrl+Z
effect at lines 1098-1107)

The uploads array, the history stack and the pending snapshot are
modelled as a record; the DragMove draggingRef gates whether pointer-up
fires onDrop, exactly as in the component.  The JS array push/pop at the
end of uploadHistoryRef is rendered as cons/head, the standard LIFO
translation.  The snapshot map produced at onPick copies every upload and
its position array; over immutable values that copy is the list itself. -/

/-- One entry of the uploads state (UploadedGlb). -/
structure UploadItem where
  id : String
  name : String
  url : String
  position : V3
  scale : ℚ
deriving DecidableEq, Repr

/-- The page state touched by drag history: uploads, the undo stack
(uploadHistoryRef, newest first), the pending snapshot (pendingUndoRef),
the dragged upload id, and the DragMove draggingRef. -/
structure HistState where
  uploads : List UploadItem
  history : List (List UploadItem)
  pendingUndo : Option (List UploadItem)
  draggedUploadId : Option String
  dragging : Bool
deriving DecidableEq, Repr

/-- The onPick handler (page.tsx 1691-1706) combined with the DragMove
pointer-down that invokes it: a hit arms the session and snapshots the
whole uploads list into pendingUndoRef; a miss clears the selection and
leaves the drag refs untouched. -/
def histPointerDown (st : HistState) (hit : Option String) : HistState :=
  match hit with
  | some id =>
    { st with
        dragging := true
        draggedUploadId := some id
        pendingUndo := some st.uploads }
  | none =>
    { st with draggedUploadId := none }

/-- The onMove handler (page.tsx 1707-1713): while an upload is dragged,
its position in the uploads state is replaced by the emitted position. -/
def histMove (st : HistState) (pos : V3) : HistState :=
  match st.draggedUploadId with
  | none => st
  | some id =>
    { st with
        uploads := st.uploads.map fun u =>
          if u.id = id then { u with position := pos } else u }

/-- Pointer-up or pointer-leave: DragMove fires onDrop only when
draggingRef is set (page.tsx 251-252); onDrop (page.tsx 1714-1721) pushes
the pending snapshot, if any, onto the history stack and clears it. -/
def histPointerUp (st : HistState) : HistState :=
  if st.dragging then
    match st.pendingUndo with
    | some snap =>
      { st with
          dragging := false
          history := snap :: st.history
          pendingUndo := none
          draggedUploadId := none }
    | none =>
      { st with dragging := false, draggedUploadId := none }
  else
    { st with dragging := false }

/-- The Ctrl+Z handler (page.tsx 1098-1107): pop the newest snapshot, if
any, and replace the uploads state with it wholesale. -/
def histUndo (st : HistState) : HistState :=
  match st.history with
  | [] => st
  | last :: rest => { st with uploads := last, history := rest }

/-- One grab-drag-drop cycle: pointer-down on an upload, a sequence of
emitted move positions, then pointer-up. -/
def histCycle (st : HistState) (id : String) (moves : List V3) : HistState :=
  histPointerUp (moves.foldl histMove (histPointerDown st (some id)))

/-- A sequence of grab-drag-drop cycles. -/
def histCycles (st : HistState) (specs : List (String × List V3)) : HistState :=
  specs.foldl (fun s spec => histCycle s spec.1 spec.2) st

theorem histMove_fields (s : HistState) (pos : V3) :
    (histMove s pos).history = s.history ∧
    (histMove s pos).pendingUndo = s.pendingUndo ∧
    (histMove s pos).dragging = s.dragging := by
  unfold histMove
  cases s.draggedUploadId <;> simp

theorem histMoves_fields (moves : List V3) (s : HistState) :
    (moves.foldl histMove s).history = s.history ∧
    (moves.foldl histMove s).pendingUndo = s.pendingUndo ∧
    (moves.foldl histMove s).dragging = s.dragging := by
  induction moves generalizing s with
  | nil => simp
  | cons m rest ih =>
    simp only [List.foldl_cons]
    have h1 := histMove_fields s m
    have h2 := ih (histMove s m)
    exact ⟨h2.1.trans h1.1, h2.2.1.trans h1.2.1, h2.2.2.trans h1.2.2⟩

/-- C6: a grab-drag-drop cycle on an upload pushes exactly the snapshot of
the uploads taken at grab time, once; an undo right after the cycle
restores the pre-drag uploads exactly; N consecutive cycles push exactly N
entries; and a pointer-up after a pointer-down that hit nothing pushes
nothing. -/
theorem C6_drop_once :
    (∀ (st : HistState) (id : String) (moves : List V3),
        (histCycle st id moves).history = st.uploads :: st.history) ∧
    (∀ (st : HistState) (id : String) (moves : List V3),
        (histUndo (histCycle st id moves)).uploads = st.uploads ∧
        (histUndo (histCycle st id moves)).history = st.history) ∧
    (∀ (st : HistState) (specs : List (String × List V3)),
        (histCycles st specs).history.length = st.history.length + specs.length) ∧
    (∀ st : HistState, st.dragging = false →
        (histPointerUp (histPointerDown st none)).history = st.history) := by
  have hcycle : ∀ (st : HistState) (id : String) (moves : List V3),
      (histCycle st id moves).history = st.uploads :: st.history := by
    intro st id moves
    unfold histCycle histPointerDown
    have hf := histMoves_fields moves
      { st with
          dragging := true
          draggedUploadId := some id
          pendingUndo := some st.uploads }
    unfold histPointerUp
    rw [hf.2.2, hf.2.1]
    simp [hf.1]
  refine ⟨hcycle, ?_, ?_, ?_⟩
  · intro st id moves
    have h := hcycle st id moves
    unfold histUndo
    rw [h]
    exact ⟨rfl, rfl⟩
  · intro st specs
    induction specs generalizing st with
    | nil => simp [histCycles]
    | cons sp rest ih =>
      have hstep := hcycle st sp.1 sp.2
      have : (histCycles st (sp :: rest)) = histCycles (histCycle st sp.1 sp.2) rest := by
        simp [histCycles]
      rw [this, ih, hstep]
      simp [Nat.add_comm, Nat.add_assoc]
      omega
  · intro st hdrag
    unfold histPointerDown histPointerUp
    simp [hdrag]

/-- Witness for C6 at concrete inputs: one upload, one cycle with one move
pushes the pre-drag snapshot; a miss followed by pointer-up pushes
nothing. -/
theorem C6_drop_once_witness :
    (⟨[⟨"a", "n", "u", ⟨0, 0, 0⟩, 1⟩], [], none, none, false⟩ :
        HistState).dragging = false ∧
    (histCycle ⟨[⟨"a", "n", "u", ⟨0, 0, 0⟩, 1⟩], [], none, none, false⟩
        "a" [⟨1, 2, 3⟩]).history
      = [[⟨"a", "n", "u", ⟨0, 0, 0⟩, 1⟩]] ∧
    (histPointerUp (histPointerDown
        ⟨[⟨"a", "n", "u", ⟨0, 0, 0⟩, 1⟩], [], none, none, false⟩ none)).history
      = [] :=
  ⟨rfl,
    C6_drop_once.1 ⟨[⟨"a", "n", "u", ⟨0, 0, 0⟩, 1⟩], [], none, none, false⟩
      "a" [⟨1, 2, 3⟩],
    C6_drop_once.2.2.2 ⟨[⟨"a", "n", "u", ⟨0, 0, 0⟩, 1⟩], [], none, none, false⟩
      rfl⟩

/-- C7: undo with an empty history stack is a no-op on the whole state;
with a non-empty stack it pops exactly the newest snapshot and replaces
the uploads wholesale with it, leaving every other field unchanged. -/
theorem C7_undo_empty_noop (st : HistState) :
    (st.history = [] → histUndo st = st) ∧
    (∀ top rest, st.history = top :: rest →
        (histUndo st).uploads = top ∧
        (histUndo st).history = rest ∧
        (histUndo st).pendingUndo = st.pendingUndo ∧
        (histUndo st).dragging = st.dragging ∧
        (histUndo st).draggedUploadId = st.draggedUploadId) := by
  constructor
  · intro h
    unfold histUndo
    rw [h]
  · intro top rest h
    unfold histUndo
    rw [h]
    exact ⟨rfl, rfl, rfl, rfl, rfl⟩

/-- Witness for C7 at concrete inputs: an empty stack leaves the state
untouched; a one-entry stack pops it into the uploads state. -/
theorem C7_undo_empty_noop_witness :
    (⟨[⟨"a", "n", "u", ⟨1, 1, 1⟩, 1⟩], [], none, none, false⟩ :
        HistState).history = [] ∧
    histUndo ⟨[⟨"a", "n", "u", ⟨1, 1, 1⟩, 1⟩], [], none, none, false⟩
      = ⟨[⟨"a", "n", "u", ⟨1, 1, 1⟩, 1⟩], [], none, none, false⟩ ∧
    (histUndo ⟨[⟨"a", "n", "u", ⟨1, 1, 1⟩, 1⟩],
        [[⟨"a", "n", "u", ⟨0, 0, 0⟩, 1⟩]], none, none, false⟩).uploads
      = [⟨"a", "n", "u", ⟨0, 0, 0⟩, 1⟩] ∧
    (histUndo ⟨[⟨"a", "n", "u", ⟨1, 1, 1⟩, 1⟩],
        [[⟨"a", "n", "u", ⟨0, 0, 0⟩, 1⟩]], none, none, false⟩).history = [] :=
  ⟨rfl,
    (C7_undo_empty_noop
      ⟨[⟨"a", "n", "u", ⟨1, 1, 1⟩, 1⟩], [], none, none, false⟩).1 rfl,
    ((C7_undo_empty_noop
      ⟨[⟨"a", "n", "u", ⟨1, 1, 1⟩, 1⟩],
        [[⟨"a", "n", "u", ⟨0, 0, 0⟩, 1⟩]], none, none, false⟩).2 _ _ rfl).1,
    ((C7_undo_empty_noop
      ⟨[⟨"a", "n", "u", ⟨1, 1, 1⟩, 1⟩],
        [[⟨"a", "n", "u", ⟨0, 0, 0⟩, 1⟩]], none, none, false⟩).2 _ _ rfl).2.1⟩

/-! ## Mesh picking tie-break (page.tsx MeshPicker, lines 801-845)

Each raycaster hit is reduced to what the loop reads from it: the object
identity, whether it is a descendant of the AGV group, and the size of its
world bounding box.  The JS expression size.x*size.y*size.z || Infinity
maps a zero product to Infinity; over ℚ an Option models the volume, none
standing for Infinity. -/

/-- One ray-hit candidate as consumed by the tie-break loop. -/
structure PickCandidate where
  objId : String
  underVehicle : Bool
  size : V3
deriving DecidableEq, Repr

/-- The candidate volume: the bounding-box volume when nonzero, none
(Infinity) for a degenerate box, mirroring size.x*size.y*size.z ||
Number.POSITIVE_INFINITY. -/
def candVolume (c : PickCandidate) : Option ℚ :=
  let v := c.size.x * c.size.y * c.size.z
  if v = 0 then none else some v

/-- One iteration of the best-candidate loop (page.tsx 818-828): skip
descendants of the AGV, and keep the candidate of strictly smallest
finite volume (an infinite volume never beats the running best, which
starts at Infinity). -/
def pickFold (acc : Option (PickCandidate × ℚ)) (c : PickCandidate) :
    Option (PickCandidate × ℚ) :=
  if c.underVehicle = true then acc
  else
    match candVolume c with
    | none => acc
    | some v =>
      match acc with
      | none => some (c, v)
      | some (b, bv) => if v < bv then some (c, v) else some (b, bv)

/-- The choice made for a non-empty hit list (page.tsx 808-829): the
best-volume candidate when one exists, otherwise the first raw hit
(best ?? hits[0].object). -/
def chooseCandidate (hits : List PickCandidate) : Option PickCandidate :=
  match hits with
  | [] => none
  | h0 :: _ =>
    match hits.foldl pickFold none with
    | some (b, _) => some b
    | none => some h0

theorem pickFold_some_of_some (l : List PickCandidate) (b : PickCandidate)
    (bv : ℚ) : ∃ b' bv', l.foldl pickFold (some (b, bv)) = some (b', bv') := by
  induction l generalizing b bv with
  | nil => exact ⟨b, bv, rfl⟩
  | cons c rest ih =>
    simp only [List.foldl_cons]
    unfold pickFold
    by_cases hu : c.underVehicle = true
    · simp only [hu, if_true]
      exact ih b bv
    · simp only [hu, if_false]
      cases candVolume c with
      | none => exact ih b bv
      | some v =>
        by_cases hv : v < bv
        · simp only [hv, if_true]
          exact ih c v
        · simp only [hv, if_false]
          exact ih b bv

theorem pickFold_min (l : List PickCandidate) (acc : Option (PickCandidate × ℚ))
    (hacc : ∀ b bv, acc = some (b, bv) →
      b.underVehicle = false ∧ candVolume b = some bv) :
    ∀ b bv, l.foldl pickFold acc = some (b, bv) →
      (b.underVehicle = false ∧ candVolume b = some bv) ∧
      (∀ c ∈ l, c.underVehicle = false →
        ∀ w, candVolume c = some w → bv ≤ w) ∧
      (∀ b0 bv0, acc = some (b0, bv0) → bv ≤ bv0) := by
  induction l generalizing acc with
  | nil =>
    intro b bv h
    refine ⟨hacc b bv h, by simp, ?_⟩
    intro b0 bv0 h0
    rw [h0] at h
    cases h
    exact le_refl _
  | cons c rest ih =>
    intro b bv h
    simp only [List.foldl_cons] at h
    by_cases hu : c.underVehicle = true
    · have hstep : pickFold acc c = acc := by unfold pickFold; simp [hu]
      rw [hstep] at h
      have := ih acc hacc b bv h
      refine ⟨this.1, ?_, this.2.2⟩
      intro d hd hdu w hw
      rcases List.mem_cons.mp hd with rfl | hd'
      · rw [hdu] at hu; exact absurd hu (by simp)
      · exact this.2.1 d hd' hdu w hw
    · cases hcv : candVolume c with
      | none =>
        have hstep : pickFold acc c = acc := by unfold pickFold; simp [hu, hcv]
        rw [hstep] at h
        have := ih acc hacc b bv h
        refine ⟨this.1, ?_, this.2.2⟩
        intro d hd hdu w hw
        rcases List.mem_cons.mp hd with rfl | hd'
        · rw [hw] at hcv; cases hcv
        · exact this.2.1 d hd' hdu w hw
      | some v =>
        have hub : c.underVehicle = false := by
          cases hvv : c.underVehicle
          · rfl
          · exact absurd hvv hu
        cases hac : acc with
        | none =>
          have hstep : pickFold acc c = some (c, v) := by
            unfold pickFold; simp [hu, hcv, hac]
          rw [hstep] at h
          have := ih (some (c, v))
            (by intro b' bv' hb'; cases hb'; exact ⟨hub, hcv⟩) b bv h
          refine ⟨this.1, ?_, ?_⟩
          · intro d hd hdu w hw
            rcases List.mem_cons.mp hd with rfl | hd'
            · have hle := this.2.2 d v rfl
              rw [hw] at hcv
              cases hcv
              exact hle
            · exact this.2.1 d hd' hdu w hw
          · intro b0 bv0 h0
            exact Option.noConfusion h0
        | some pr =>
          rcases pr with ⟨b1, bv1⟩
          by_cases hlt : v < bv1
          · have hstep : pickFold acc c = some (c, v) := by
              unfold pickFold; simp [hu, hcv, hac, hlt]
            rw [hstep] at h
            have := ih (some (c, v))
              (by intro b' bv' hb'; cases hb'; exact ⟨hub, hcv⟩) b bv h
            refine ⟨this.1, ?_, ?_⟩
            · intro d hd hdu w hw
              rcases List.mem_cons.mp hd with rfl | hd'
              · have hle := this.2.2 d v rfl
                rw [hw] at hcv; cases hcv; exact hle
              · exact this.2.1 d hd' hdu w hw
            · intro b0 bv0 h0
              cases h0
              exact le_trans (this.2.2 c v rfl) (le_of_lt hlt)
          · have hstep : pickFold acc c = some (b1, bv1) := by
              unfold pickFold; simp [hu, hcv, hac, hlt]
            rw [hstep] at h
            have hacc1 : ∀ b' bv', some (b1, bv1) = some (b', bv') →
                b'.underVehicle = false ∧ candVolume b' = some bv' := by
              intro b' bv' hb'; cases hb'; exact hacc b1 bv1 hac
            have := ih (some (b1, bv1)) hacc1 b bv h
            refine ⟨this.1, ?_, ?_⟩
            · intro d hd hdu w hw
              rcases List.mem_cons.mp hd with rfl | hd'
              · have hle := this.2.2 b1 bv1 rfl
                rw [hw] at hcv
                cases hcv
                exact le_trans hle (not_lt.mp hlt)
              · exact this.2.1 d hd' hdu w hw
            · intro b0 bv0 h0
              cases h0
              exact this.2.2 b1 bv1 rfl

theorem pickFold_reaches_some (l : List PickCandidate)
    (acc : Option (PickCandidate × ℚ)) (c : PickCandidate) (v : ℚ)
    (hc : c ∈ l) (hu : c.underVehicle = false) (hv : candVolume c = some v) :
    ∃ b bv, l.foldl pickFold acc = some (b, bv) := by
  induction l generalizing acc with
  | nil => cases hc
  | cons d rest ih =>
    rcases List.mem_cons.mp hc with rfl | hc'
    · simp only [List.foldl_cons]
      have hstep : ∃ b bv, pickFold acc c = some (b, bv) := by
        cases acc with
        | none => exact ⟨c, v, by unfold pickFold; simp [hu, hv]⟩
        | some pr =>
          rcases pr with ⟨b, bv⟩
          by_cases hlt : v < bv
          · exact ⟨c, v, by unfold pickFold; simp [hu, hv, hlt]⟩
          · exact ⟨b, bv, by unfold pickFold; simp [hu, hv, hlt]⟩
      obtain ⟨b, bv, hb⟩ := hstep
      rw [hb]
      exact pickFold_some_of_some rest b bv
    · simp only [List.foldl_cons]
      exact ih (pickFold acc d) hc'

/-- C8 counterexample: a single ray hit that is a descendant of the AGV
group is skipped by the loop, the running best stays empty, and the
fallback best ?? hits[0].object returns that very vehicle-subtree node,
so a node inside the vehicle subtree can be chosen. -/
theorem C8_pick_counterexample :
    chooseCandidate [⟨"vehiclePart", true, ⟨1, 1, 1⟩⟩]
      = some ⟨"vehiclePart", true, ⟨1, 1, 1⟩⟩ ∧
    (⟨"vehiclePart", true, ⟨1, 1, 1⟩⟩ : PickCandidate).underVehicle = true := by
  constructor
  · norm_num [chooseCandidate, pickFold]
  · rfl

/-- C8 amended: whenever some hit outside the vehicle subtree has a
non-degenerate bounding box, the chosen candidate is outside the vehicle
subtree, has finite volume, and its volume is minimal among all such
hits (in particular, of two overlapping hit volumes V1 < V2 the V1 entity
wins); degenerate volumes count as infinite and are never preferred.
Without any such hit the code falls back to the first raw hit, which may
lie inside the vehicle subtree. -/
theorem C8_pick_smallest_amended (hits : List PickCandidate)
    (c : PickCandidate) (v : ℚ)
    (hc : c ∈ hits) (hu : c.underVehicle = false) (hv : candVolume c = some v) :
    ∃ b bv, chooseCandidate hits = some b ∧
      b.underVehicle = false ∧ candVolume b = some bv ∧
      ∀ d ∈ hits, d.underVehicle = false →
        ∀ w, candVolume d = some w → bv ≤ w := by
  cases hits with
  | nil => cases hc
  | cons h0 rest =>
    obtain ⟨b, bv, hfold⟩ :=
      pickFold_reaches_some (h0 :: rest) none c v hc hu hv
    have hmin := pickFold_min (h0 :: rest) none
      (by intro _ _ h; exact Option.noConfusion h) b bv hfold
    refine ⟨b, bv, ?_, hmin.1.1, hmin.1.2, hmin.2.1⟩
    unfold chooseCandidate
    rw [hfold]

/-- Witness for the amended C8 at a concrete input: two overlapping free
hits of volumes 8 and 1; the chosen candidate is outside the vehicle
subtree with minimal volume. -/
theorem C8_pick_smallest_amended_witness :
    ((⟨"small", false, ⟨1, 1, 1⟩⟩ : PickCandidate)
        ∈ [(⟨"big", false, ⟨2, 2, 2⟩⟩ : PickCandidate),
            ⟨"small", false, ⟨1, 1, 1⟩⟩] ∧
      (⟨"small", false, ⟨1, 1, 1⟩⟩ : PickCandidate).underVehicle = false ∧
      candVolume ⟨"small", false, ⟨1, 1, 1⟩⟩ = some 1) ∧
    (∃ b bv, chooseCandidate
        [(⟨"big", false, ⟨2, 2, 2⟩⟩ : PickCandidate),
          ⟨"small", false, ⟨1, 1, 1⟩⟩] = some b ∧
      b.underVehicle = false ∧ candVolume b = some bv ∧
      ∀ d ∈ [(⟨"big", false, ⟨2, 2, 2⟩⟩ : PickCandidate),
          ⟨"small", false, ⟨1, 1, 1⟩⟩], d.underVehicle = false →
        ∀ w, candVolume d = some w → bv ≤ w) :=
  ⟨⟨by decide, rfl, by norm_num [candVolume]⟩,
    C8_pick_smallest_amended
      [⟨"big", false, ⟨2, 2, 2⟩⟩, ⟨"small", false, ⟨1, 1, 1⟩⟩]
      ⟨"small", false, ⟨1, 1, 1⟩⟩ 1
      (by decide) rfl (by norm_num [candVolume])⟩

/-! ## Camera rig (page.tsx CameraRig, lines 524-589)

The FOLLOW and FPV branches compute a target position, clamp the target
height to ground + 0.2, then lerp the camera position toward the target
with a frame-rate-dependent factor t = 1 - k^dt, which ranges over [0, 1)
for dt >= 0.  The factor is carried as a parameter t. -/

/-- What the FOLLOW/FPV branches read each tick: the AGV position, its
published forward unit vector (userData.forward), and the cached bounds
hints (userData.cam). -/
structure CamEnv where
  agvPos : V3
  forward : V3
  height : ℚ
  depth : ℚ
  centerY : ℚ
  groundY : ℚ
deriving DecidableEq, Repr

/-- THREE.Vector3.lerp: each component moves toward the target by the
fraction t. -/
def lerpV3 (a b : V3) (t : ℚ) : V3 :=
  ⟨a.x + (b.x - a.x) * t, a.y + (b.y - a.y) * t, a.z + (b.z - a.z) * t⟩

/-- The FOLLOW target (page.tsx 549-564): behind the vehicle along the
negative forward vector at distance max(3, depth*1.6), raised by
max(1.2, height*0.9), with the height then clamped to ground + 0.2. -/
def followCamTarget (e : CamEnv) : V3 :=
  let followHeight := max (6 / 5) (e.height * (9 / 10))
  let followDistance := max 3 (e.depth * (16 / 10))
  let vy := e.agvPos.y + e.forward.y * (-followDistance) + followHeight
  ⟨e.agvPos.x + e.forward.x * (-followDistance),
    max vy (e.groundY + 1 / 5),
    e.agvPos.z + e.forward.z * (-followDistance)⟩

/-- One FOLLOW tick (page.tsx 565): camera.position.lerp(v, t). -/
def followCamTick (camPos : V3) (e : CamEnv) (t : ℚ) : V3 :=
  lerpV3 camPos (followCamTarget e) t

/-- The FPV target (page.tsx 572-576): the world position of the fpv
mount, with the height clamped to ground + 0.2. -/
def fpvCamTarget (fpvWorld : V3) (groundY : ℚ) : V3 :=
  ⟨fpvWorld.x, max fpvWorld.y (groundY + 1 / 5), fpvWorld.z⟩

/-- One FPV tick (page.tsx 577): camera.position.lerp(v, t). -/
def fpvCamTick (camPos fpvWorld : V3) (groundY t : ℚ) : V3 :=
  lerpV3 camPos (fpvCamTarget fpvWorld groundY) t

/-- C9 counterexample: a FOLLOW tick starting with the camera at height -1
(below ground + 0.2 = 0.19 for ground -0.01) with smoothing factor 1/10
(attained by 1 - 0.001^dt at some dt > 0) ends at height -18/25, still
below ground + 0.2: only the target is clamped, not the lerped camera. -/
theorem C9_camera_clamp_counterexample :
    (followCamTick ⟨0, -1, 0⟩ ⟨⟨0, 0, 0⟩, ⟨0, 0, -1⟩, 2, 3, 1, -1 / 100⟩
        (1 / 10)).y
      = -18 / 25 ∧
    ¬ ((-18 / 25 : ℚ) ≥ -1 / 100 + 1 / 5) := by
  constructor
  · norm_num [followCamTick, followCamTarget, lerpV3]
  · norm_num

/-- C9 amended: in FOLLOW and FPV modes the clamped target height never
falls below ground + 0.2, and a camera whose height is already at least
ground + 0.2 stays there after the tick for any smoothing factor in
[0, 1]; a camera entering the mode below that bound can remain below it
during a tick. -/
theorem C9_camera_clamp_amended (e : CamEnv) (camPos : V3) (t : ℚ)
    (fpvWorld : V3) (ht0 : 0 ≤ t) (ht1 : t ≤ 1) :
    (followCamTarget e).y ≥ e.groundY + 1 / 5 ∧
    (camPos.y ≥ e.groundY + 1 / 5 →
      (followCamTick camPos e t).y ≥ e.groundY + 1 / 5) ∧
    (fpvCamTarget fpvWorld e.groundY).y ≥ e.groundY + 1 / 5 ∧
    (camPos.y ≥ e.groundY + 1 / 5 →
      (fpvCamTick camPos fpvWorld e.groundY t).y ≥ e.groundY + 1 / 5) := by
  have htf : (followCamTarget e).y ≥ e.groundY + 1 / 5 := le_max_right _ _
  have htp : (fpvCamTarget fpvWorld e.groundY).y ≥ e.groundY + 1 / 5 :=
    le_max_right _ _
  refine ⟨htf, ?_, htp, ?_⟩
  · intro h
    show camPos.y + ((followCamTarget e).y - camPos.y) * t ≥ e.groundY + 1 / 5
    nlinarith [mul_nonneg ht0 (sub_nonneg.mpr htf),
      mul_nonneg (sub_nonneg.mpr ht1) (sub_nonneg.mpr h)]
  · intro h
    show camPos.y + ((fpvCamTarget fpvWorld e.groundY).y - camPos.y) * t
        ≥ e.groundY + 1 / 5
    nlinarith [mul_nonneg ht0 (sub_nonneg.mpr htp),
      mul_nonneg (sub_nonneg.mpr ht1) (sub_nonneg.mpr h)]

/-- Witness for the amended C9 at a concrete input: ground 0, camera at
height 5, smoothing factor 1/2. -/
theorem C9_camera_clamp_amended_witness :
    ((0 : ℚ) ≤ 1 / 2 ∧ (1 / 2 : ℚ) ≤ 1) ∧
    (followCamTarget ⟨⟨0, 0, 0⟩, ⟨0, 0, -1⟩, 2, 3, 1, 0⟩).y ≥ 0 + 1 / 5 ∧
    ((⟨0, 5, 0⟩ : V3).y ≥ 0 + 1 / 5 →
      (followCamTick ⟨0, 5, 0⟩ ⟨⟨0, 0, 0⟩, ⟨0, 0, -1⟩, 2, 3, 1, 0⟩
          (1 / 2)).y ≥ 0 + 1 / 5) ∧
    (fpvCamTarget ⟨0, 3, 0⟩ 0).y ≥ 0 + 1 / 5 ∧
    ((⟨0, 5, 0⟩ : V3).y ≥ 0 + 1 / 5 →
      (fpvCamTick ⟨0, 5, 0⟩ ⟨0, 3, 0⟩ 0 (1 / 2)).y ≥ 0 + 1 / 5) :=
  ⟨⟨by norm_num, by norm_num⟩,
    C9_camera_clamp_amended ⟨⟨0, 0, 0⟩, ⟨0, 0, -1⟩, 2, 3, 1, 0⟩ ⟨0, 5, 0⟩
      (1 / 2) ⟨0, 3, 0⟩ (by norm_num) (by norm_num)⟩

/-! ## Upload route (src/app/api/upload/route.ts)

Strings are lists of characters.  Date.now() is an arbitrary natural
stamp; the template literal renders it in decimal.  path.basename is the
POSIX basename: drop trailing slashes, then take the suffix after the
last remaining slash (empty for an all-slash path).  The replace call
maps every character outside [a-zA-Z0-9._-] to an underscore. -/

/-- Decimal rendering of a natural number, as the template literal
writes the integer Date.now(). -/
def natDigits (n : ℕ) : List Char :=
  if h : n < 10 then [Char.ofNat (48 + n)]
  else natDigits (n / 10) ++ [Char.ofNat (48 + n % 10)]
decreasing_by
  exact Nat.div_lt_self (by omega) (by omega)

/-- The character class [a-zA-Z0-9._-] kept by safeName. -/
def allowedChar (c : Char) : Bool :=
  ('a' ≤ c && c ≤ 'z') || ('A' ≤ c && c ≤ 'Z') || ('0' ≤ c && c ≤ '9')
    || c == '.' || c == '_' || c == '-'

/-- One character of the replace: kept when allowed, otherwise an
underscore. -/
def sanitizeChar (c : Char) : Char :=
  if allowedChar c then c else '_'

/-- base.replace of safeName applied to every character. -/
def sanitizeName (s : List Char) : List Char :=
  s.map sanitizeChar

/-- Remove trailing path separators, the first scan of POSIX basename. -/
def dropTrailingSlashes (s : List Char) : List Char :=
  (s.reverse.dropWhile fun c => c == '/').reverse

/-- The suffix after the last separator, the second scan of POSIX
basename. -/
def afterLastSlash (s : List Char) : List Char :=
  (s.reverse.takeWhile fun c => c != '/').reverse

/-- path.basename for POSIX paths as used by the upload route. -/
def posixBasename (s : List Char) : List Char :=
  afterLastSlash (dropTrailingSlashes s)

/-- safeName (route.ts 7-11): the decimal stamp, a hyphen, and the
sanitised basename of the client-supplied file name. -/
def safeName (stamp : ℕ) (name : List Char) : List Char :=
  natDigits stamp ++ '-' :: sanitizeName (posixBasename name)

/-- A single normal path component: nonempty, not a dot or dot-dot
segment, and free of separators.  Joining such a component under a
directory yields a path directly inside that directory. -/
def isSingleComponent (n : List Char) : Prop :=
  n ≠ [] ∧ n ≠ ['.'] ∧ n ≠ ['.', '.'] ∧ '/' ∉ n

theorem allowedChar_digit (d : ℕ) (hd : d < 10) :
    allowedChar (Char.ofNat (48 + d)) = true := by
  interval_cases d <;> decide

theorem natDigits_allowed (n : ℕ) : ∀ c ∈ natDigits n, allowedChar c = true := by
  induction n using Nat.strong_induction_on with
  | _ n ih =>
    intro c hc
    unfold natDigits at hc
    by_cases h : n < 10
    · simp only [h, dif_pos, List.mem_singleton] at hc
      subst hc
      exact allowedChar_digit n h
    · simp only [h, dif_neg, not_false_iff, List.mem_append,
        List.mem_singleton] at hc
      rcases hc with hc | hc
      · exact ih (n / 10) (Nat.div_lt_self (by omega) (by omega)) c hc
      · subst hc
        exact allowedChar_digit (n % 10) (Nat.mod_lt _ (by omega))

/-- C10: the stored name is the decimal timestamp, a hyphen, and the
sanitised basename; every character of it lies in [a-zA-Z0-9._-], and the
whole name is a single normal path component (nonempty, not dot or
dot-dot, no separator), so path.join(uploadDir, name) stays directly
inside public/uploads whatever the client supplied: no path traversal. -/
theorem C10_safeName_no_traversal (stamp : ℕ) (name : List Char) :
    (∀ c ∈ safeName stamp name, allowedChar c = true) ∧
    isSingleComponent (safeName stamp name) := by
  have hall : ∀ c ∈ safeName stamp name, allowedChar c = true := by
    intro c hc
    unfold safeName at hc
    rcases List.mem_append.mp hc with hc | hc
    · exact natDigits_allowed stamp c hc
    · rcases List.mem_cons.mp hc with rfl | hc
      · decide
      · unfold sanitizeName at hc
        rcases List.mem_map.mp hc with ⟨d, _, rfl⟩
        unfold sanitizeChar
        by_cases hd : allowedChar d = true
        · rw [if_pos hd]; exact hd
        · rw [if_neg hd]; decide
  have hdash : '-' ∈ safeName stamp name := by
    unfold safeName
    exact List.mem_append.mpr (Or.inr (List.mem_cons_self _ _))
  refine ⟨hall, ?_, ?_, ?_, ?_⟩
  · intro h
    rw [h] at hdash
    exact absurd hdash (List.not_mem_nil _)
  · intro h
    rw [h] at hdash
    simp at hdash
  · intro h
    rw [h] at hdash
    simp at hdash
  · intro h
    exact absurd (hall '/' h) (by decide)
